import Mathlib

/-!
Verification of `src/termux-exec-compat/termux_exec_compat.c` against its
natural-language specification.

Shallow embedding conventions:
* C strings are `List Char` (one `Char` per byte; no interior NUL unless noted).
  `NULL` string pointers are modelled as `Option` where a claim depends on them
  (argv / envp); the executable path argument is modelled as a plain string.
* The filesystem is a function from path to optional file content
  (`none` = `open` fails); `read` of `k` bytes returns `content.take k`.
* The environment block is a record of the three variables the code reads
  (`PREFIX`, `TERMUX__ROOTFS`, `PATH`); `none` = unset.
* `access(path, X_OK) == 0` is an abstract predicate `acc : CStr → Bool`.
* The resolved real `execve` is an oracle `real : ExecCall → Option Nat`
  (`none` = the exec succeeded and control never returns, `some e` = it
  returned -1 with `errno = e`).  Allocation (`calloc`/`strdup`) is assumed
  to succeed, and `dlsym` resolution of the real `execve` is assumed to have
  succeeded (the `ENOSYS` / `ENOMEM` early exits are outside the model).
-/

set_option autoImplicit false
set_option maxRecDepth 20000

namespace TermuxExecCompat

/-- A C byte string (no terminating NUL stored). -/
abbrev CStr := List Char

/-- Filesystem: path to optional content (`none` = open fails). -/
abbrev FS := CStr → Option CStr

/-- Linux errno values used by the code. -/
def ENOENT : Nat := 2
def ENOEXEC : Nat := 8
def ENOMEM : Nat := 12
def EACCES : Nat := 13
def ENOTDIR : Nat := 20
def ENOSYS : Nat := 38

/-- `PATH_MAX` from `<limits.h>` on Linux. -/
def PATH_MAX : Nat := 4096

/-- The environment variables the code reads via `getenv`. -/
structure Env where
  vPREFIX : Option CStr
  vROOTFS : Option CStr
  vPATH : Option CStr
deriving DecidableEq

/-- `starts_with(value, p)`: `strncmp(value, p, strlen(p)) == 0`. -/
def starts_with (value pfx : CStr) : Bool :=
  pfx.isPrefixOf value

/-- `is_linker_path`. -/
def is_linker_path (path : CStr) : Bool :=
  path == "/system/bin/linker64".data || path == "/system/bin/linker".data

/-- `select_system_linker`: probe the 64-bit linker, fall back to 32-bit. -/
def select_system_linker (acc : CStr → Bool) : CStr :=
  if acc "/system/bin/linker64".data then "/system/bin/linker64".data
  else "/system/bin/linker".data

/-- The first legacy install root tested by `map_legacy_termux_usr_path`. -/
def legacy_data : CStr := "/data/data/com.termux/files/usr".data

/-- The second legacy install root tested by `map_legacy_termux_usr_path`. -/
def legacy_user : CStr := "/data/user/0/com.termux/files/usr".data

/-- `map_legacy_termux_usr_path(path, out, PATH_MAX)`.
`none` models returning `false` (no rewrite); `some out` models returning
`true` with `out` filled.  The final `if` models
`n = snprintf(out, 4096, "%s%s", ...); return n > 0 && n < 4096;`. -/
def map_legacy_termux_usr_path (env : Env) (path : CStr) : Option CStr :=
  match env.vPREFIX with
  | none => none
  | some pfx =>
    if pfx = [] then none
    else
      let suffix? :=
        if starts_with path legacy_data then some (path.drop legacy_data.length)
        else if starts_with path legacy_user then some (path.drop legacy_user.length)
        else none
      match suffix? with
      | none => none
      | some suf =>
        if 0 < (pfx ++ suf).length ∧ (pfx ++ suf).length < PATH_MAX
        then some (pfx ++ suf) else none

/-- `strstr(l, pat) != NULL`. -/
def has_substr (pat : CStr) : CStr → Bool
  | [] => pat.isEmpty
  | c :: rest => pat.isPrefixOf (c :: rest) || has_substr pat rest

/-- `path_in_prefix` from the source (renamed): classifier for the managed
environment.  Rejects non-absolute paths, remaps, then tests
`TERMUX__ROOTFS`, `PREFIX`, and the `"/files/prefix/"` marker substring. -/
def path_in_pfx (env : Env) (path : CStr) : Bool :=
  if path.head? ≠ some '/' then false
  else
    let check := (map_legacy_termux_usr_path env path).getD path
    (match env.vROOTFS with
     | none => false
     | some r => !r.isEmpty && starts_with check r)
    || (match env.vPREFIX with
        | none => false
        | some r => !r.isEmpty && starts_with check r)
    || has_substr "/files/prefix/".data check

/-- The ELF magic bytes `0x7f 'E' 'L' 'F'`. -/
def elf_magic : CStr := [Char.ofNat 127, 'E', 'L', 'F']

/-- `is_elf_binary`: read exactly 4 bytes and compare with the magic.
A failed open or a short read yields `false`. -/
def is_elf_binary (fs : FS) (path : CStr) : Bool :=
  match fs path with
  | none => false
  | some content => content.take 4 == elf_magic

/-- Parsed shebang data, `shebang_info_t` from the source.  A successful
parse with no argument leaves `arg` empty and `has_arg` false (the struct is
`memset` to zero). -/
structure shebang_info_t where
  interpreter : CStr
  arg : CStr
  has_arg : Bool
deriving DecidableEq

/-- Space or tab, the characters skipped between shebang tokens. -/
def shebang_space (c : Char) : Bool := c == ' ' || c == '\t'

/-- Characters terminating the interpreter token. -/
def shebang_term (c : Char) : Bool :=
  c == ' ' || c == '\t' || c == '\n' || c == '\r'

/-- Line-ending characters. -/
def shebang_eol (c : Char) : Bool := c == '\n' || c == '\r'

/-- The scanning part of `parse_shebang`, over the NUL-terminated buffer.
`buf` is the read bytes truncated at the first NUL byte: every scanning loop
in the C code stops at a NUL exactly as at the end of the buffer, so the
truncated list is an exact model. -/
def parse_shebang_buf (buf : CStr) : Option shebang_info_t :=
  match buf with
  | b0 :: b1 :: tail =>
    if b0 = '#' ∧ b1 = '!' then
      let p := tail.dropWhile shebang_space
      match p with
      | [] => none
      | c :: _ =>
        if c ≠ '/' then none
        else
          let interp := p.takeWhile (fun d => !shebang_term d)
          let rest := p.dropWhile (fun d => !shebang_term d)
          if interp.length = 0 ∨ PATH_MAX ≤ interp.length then none
          else
            let rest2 := rest.dropWhile shebang_space
            match rest2 with
            | [] => some ⟨interp, [], false⟩
            | d :: _ =>
              if shebang_eol d then some ⟨interp, [], false⟩
              else
                let argChars := rest2.takeWhile (fun e => !shebang_eol e)
                if 0 < argChars.length ∧ argChars.length < PATH_MAX
                then some ⟨interp, argChars, true⟩
                else some ⟨interp, [], false⟩
    else none
  | _ => none

/-- `parse_shebang`: open, `read(fd, buf, 511)`, require more than 2 bytes
read, NUL-terminate, scan.  `none` models returning `false`. -/
def parse_shebang (fs : FS) (path : CStr) : Option shebang_info_t :=
  match fs path with
  | none => none
  | some content =>
    let n := min content.length 511
    if n ≤ 2 then none
    else parse_shebang_buf ((content.take n).takeWhile (fun c => c ≠ Char.ofNat 0))

/-- `should_wrap_elf`. -/
def should_wrap_elf (env : Env) (fs : FS) (filename : CStr) : Bool :=
  if filename.head? ≠ some '/' then false
  else if is_linker_path filename then false
  else if starts_with filename "/system/".data || starts_with filename "/apex/".data then false
  else if !path_in_pfx env filename then false
  else is_elf_binary fs filename

/-- The non-sentinel part of the argv array built by `execve_via_linker`:
`linker, target, argv[1..]`. -/
def wrap_binary_written (linker filename : CStr) (argv : List CStr) : List CStr :=
  linker :: filename :: argv.drop 1

/-- The argv array built by `execve_via_linker`, cell for cell: the code
calls `calloc(argc + 2, sizeof(char *))` and then writes
`linker, target, argv[1..]` into consecutive cells from index 0, so the
array is the written cells followed by the never-written (NULL) cells. -/
def build_wrap_binary (linker filename : CStr) (argv : List CStr) : List (Option CStr) :=
  let written := (wrap_binary_written linker filename argv).map some
  written ++ List.replicate (argv.length + 2 - written.length) none

/-- The non-sentinel part of the argv array built by `exec_script_via_linker`:
`linker, interpreter, [arg], script, argv[1..]`. -/
def wrap_script_written (linker interp : CStr) (arg? : Option CStr) (script : CStr)
    (argv : List CStr) : List CStr :=
  linker :: interp :: (arg?.toList ++ script :: argv.drop 1)

/-- The argv array built by `exec_script_via_linker`, cell for cell: the code
calls `calloc(argc + fixed, sizeof(char *))` with `fixed = has_arg ? 4 : 3`
and writes the fixed slots then `argv[1..]` from index 0. -/
def build_wrap_script (linker interp : CStr) (arg? : Option CStr) (script : CStr)
    (argv : List CStr) : List (Option CStr) :=
  let fixed := if arg?.isSome then 4 else 3
  let written := (wrap_script_written linker interp arg? script argv).map some
  written ++ List.replicate (argv.length + fixed - written.length) none

/-- The argument vector the real `execve` consumes from an argv array: the
cells up to (and excluding) the first NULL cell. -/
def vec_content : List (Option CStr) → List CStr
  | [] => []
  | none :: _ => []
  | some s :: rest => s :: vec_content rest

/-- How the argv pointer handed to the real `execve` arose. -/
inductive ArgvPass where
  /-- The caller's own argv pointer, passed through (`none` = NULL). -/
  | orig (a : Option (List CStr))
  /-- A freshly allocated array, given by its cells. -/
  | built (cells : List (Option CStr))
deriving DecidableEq

/-- One invocation of the resolved real `execve`. -/
structure ExecCall where
  path : CStr
  argv : ArgvPass
  envp : List CStr
deriving DecidableEq

/-- Result of an entry point: the exec succeeded (control never returns), or
-1 was returned with an errno — after a real exec attempt (`failed (some c) e`)
or before any attempt (`failed none e`). -/
inductive ExecResult where
  | noReturn (call : ExecCall)
  | failed (callMade : Option ExecCall) (e : Nat)
deriving DecidableEq

/-- The real-execve call recorded in a result, if one was made. -/
def callOf : ExecResult → Option ExecCall
  | .noReturn c => some c
  | .failed c? _ => c?

/-- The errno of a failed result. -/
def errnoOf : ExecResult → Option Nat
  | .noReturn _ => none
  | .failed _ e => some e

/-- Invoke the real `execve` oracle. -/
def do_real (real : ExecCall → Option Nat) (call : ExecCall) : ExecResult :=
  match real call with
  | none => .noReturn call
  | some e => .failed (some call) e

/-- `execve_via_linker`: build the wrapped argv and exec the linker with it,
substituting `environ` for a NULL envp. -/
def execve_via_linker_model (acc : CStr → Bool) (real : ExecCall → Option Nat)
    (environ_ : List CStr) (filename : CStr) (argv : Option (List CStr))
    (envp : Option (List CStr)) : ExecResult :=
  let linker := select_system_linker acc
  do_real real
    ⟨linker, .built (build_wrap_binary linker filename (argv.getD [])), envp.getD environ_⟩

/-- `exec_script_via_linker`: reject an empty interpreter with `ENOEXEC`,
remap the interpreter, pass the original request through unchanged when the
remapped interpreter is outside the managed environment, otherwise exec the
linker with the wrapped script argv. -/
def exec_script_via_linker_model (env : Env) (acc : CStr → Bool)
    (real : ExecCall → Option Nat) (environ_ : List CStr) (filename : CStr)
    (sb : shebang_info_t) (argv : Option (List CStr))
    (envp : Option (List CStr)) : ExecResult :=
  if sb.interpreter = [] then .failed none ENOEXEC
  else
    let interp := (map_legacy_termux_usr_path env sb.interpreter).getD sb.interpreter
    if path_in_pfx env interp = false then
      do_real real ⟨filename, .orig argv, envp.getD environ_⟩
    else
      let linker := select_system_linker acc
      do_real real
        ⟨linker,
         .built (build_wrap_script linker interp
           (if sb.has_arg then some sb.arg else none) filename (argv.getD [])),
         envp.getD environ_⟩

/-- The interposed `execve`: remap the filename, try the ELF wrap, then the
shebang wrap (guarded by the classifier), else pass the request straight to
the real `execve`. -/
def execve_model (env : Env) (fs : FS) (acc : CStr → Bool)
    (real : ExecCall → Option Nat) (environ_ : List CStr) (filename : CStr)
    (argv : Option (List CStr)) (envp : Option (List CStr)) : ExecResult :=
  let eff := (map_legacy_termux_usr_path env filename).getD filename
  if should_wrap_elf env fs eff then
    execve_via_linker_model acc real environ_ eff argv envp
  else
    match (if path_in_pfx env eff then parse_shebang fs eff else none) with
    | some sb => exec_script_via_linker_model env acc real environ_ eff sb argv envp
    | none => do_real real ⟨eff, .orig argv, envp.getD environ_⟩

/-- Split a string at every `':'` (segments may be empty). -/
def splitSegs : CStr → List CStr
  | [] => [[]]
  | c :: rest =>
    if c = ':' then [] :: splitSegs rest
    else
      match splitSegs rest with
      | s :: ss => (c :: s) :: ss
      | [] => [[c]]

/-- The token sequence produced by `strtok_r(path_copy, ":", ...)`:
`strtok_r` treats runs of delimiters as one and never yields an empty token,
so it returns exactly the non-empty `':'`-separated segments, in order. -/
def strtok_colon (s : CStr) : List CStr :=
  (splitSegs s).filter (fun t => t ≠ [])

/-- The candidate paths the search loop actually attempts: for each token,
`dir = token[0] ? token : "."`, then `snprintf(candidate, 4096, "%s/%s", dir,
file)`, skipping the candidate when the formatted length is not in (0, 4096). -/
def build_candidates (path_env file : CStr) : List CStr :=
  (strtok_colon path_env).filterMap (fun tok =>
    let dir := if tok = [] then ".".data else tok
    let cand := dir ++ '/' :: file
    if 0 < cand.length ∧ cand.length < PATH_MAX then some cand else none)

/-- `errno != ENOENT && errno != ENOTDIR ? errno : saved`. -/
def remember_errno (saved e : Nat) : Nat :=
  if e ≠ ENOENT ∧ e ≠ ENOTDIR then e else saved

/-- The candidate loop of `search_path_and_exec`.  Returns the list of
candidates attempted (in order) together with the final result; on every
failed attempt the non-"not found" errno is remembered and the loop
continues. -/
def search_loop (att : CStr → ExecResult) : List CStr → Nat → List CStr × ExecResult
  | [], saved => ([], .failed none saved)
  | c :: rest, saved =>
    match att c with
    | .noReturn call => ([c], .noReturn call)
    | .failed _ e =>
      let pr := search_loop att rest (remember_errno saved e)
      (c :: pr.1, pr.2)

/-- The search list actually used: `getenv("PATH")`, with NULL or empty
replaced by `"/system/bin"` (source lines 308-311). -/
def effective_path (env : Env) : CStr :=
  match env.vPATH with
  | none => "/system/bin".data
  | some p => if p = [] then "/system/bin".data else p

/-- `search_path_and_exec` (NULL `file` is outside the model; the C code
fails it with `ENOENT` like the empty string).  The first component of the
pair is the instrumented trace of attempted candidates; the C function
returns only the second component. -/
def search_path_and_exec_model (env : Env) (fs : FS) (acc : CStr → Bool)
    (real : ExecCall → Option Nat) (environ_ : List CStr) (file : CStr)
    (argv : Option (List CStr)) (envp : Option (List CStr)) :
    List CStr × ExecResult :=
  if file = [] then ([], .failed none ENOENT)
  else if file.contains '/' then
    ([], execve_model env fs acc real environ_ file argv envp)
  else
    search_loop (fun c => execve_model env fs acc real environ_ c argv envp)
      (build_candidates (effective_path env) file) ENOENT

/-! ## Helper lemmas -/

theorem vec_content_map_some_append (w : List CStr) (r : List (Option CStr)) :
    vec_content (w.map some ++ none :: r) = w := by
  induction w with
  | nil => rfl
  | cons a t ih => simpa [vec_content] using ih

theorem vec_content_map_some (w : List CStr) :
    vec_content (w.map some) = w := by
  induction w with
  | nil => rfl
  | cons a t ih => simpa [vec_content] using ih

theorem build_wrap_binary_eq_of_pos (linker filename : CStr) (argv : List CStr)
    (h : 1 ≤ argv.length) :
    build_wrap_binary linker filename argv
      = (wrap_binary_written linker filename argv).map some ++ [none] := by
  have hdef : build_wrap_binary linker filename argv
      = (wrap_binary_written linker filename argv).map some
        ++ List.replicate
          (argv.length + 2 - ((wrap_binary_written linker filename argv).map some).length)
          none := rfl
  have hw : (wrap_binary_written linker filename argv).length = argv.length + 1 := by
    simp [wrap_binary_written]
    omega
  have hone : argv.length + 2 - ((wrap_binary_written linker filename argv).map some).length
      = 1 := by
    simp [hw]
  rw [hdef, hone]
  rfl

/-! ## Claims -/

/-- C2: for every original argument vector argv with `len(argv) ≥ 1` and every
WrapBinary target, the vector `execve_via_linker` passes to the underlying
exec has length exactly `len(argv)+1`, element 0 the chosen system-linker
path, element 1 the target, and elements 2 onward identical to `argv[1..]`
in order and identity.  (The builder is a pure function of the argv list, so
it cannot read past the terminator by construction.) -/
theorem C2_wrap_binary_argv (acc : CStr → Bool) (target : CStr) (argv : List CStr)
    (h : 1 ≤ argv.length) :
    vec_content (build_wrap_binary (select_system_linker acc) target argv)
        = select_system_linker acc :: target :: argv.drop 1
      ∧ (vec_content (build_wrap_binary (select_system_linker acc) target argv)).length
        = argv.length + 1 := by
  rw [build_wrap_binary_eq_of_pos _ _ _ h]
  have hc : ((wrap_binary_written (select_system_linker acc) target argv).map some ++ [none] :
      List (Option CStr))
      = (wrap_binary_written (select_system_linker acc) target argv).map some ++ none :: [] := rfl
  rw [hc, vec_content_map_some_append]
  refine ⟨rfl, ?_⟩
  simp [wrap_binary_written]
  omega

/-- Witness for C2 at a concrete input. -/
theorem C2_wrap_binary_argv_witness :
    vec_content (build_wrap_binary (select_system_linker (fun _ => true)) "/pfx/bin/tool".data
        ["tool".data, "-v".data])
        = select_system_linker (fun _ => true) :: "/pfx/bin/tool".data
            :: ["tool".data, "-v".data].drop 1
      ∧ (vec_content (build_wrap_binary (select_system_linker (fun _ => true)) "/pfx/bin/tool".data
        ["tool".data, "-v".data])).length
        = ["tool".data, "-v".data].length + 1 :=
  C2_wrap_binary_argv (fun _ => true) "/pfx/bin/tool".data ["tool".data, "-v".data] (by decide)

/-- C3 evaluated at the failing input: with an empty original argv (argc = 0,
as a NULL or empty argv produces), both builders allocate exactly as many
cells as they write — `calloc(0 + 2)` resp. `calloc(0 + 3)` — so the
constructed array contains no NULL sentinel at all. -/
theorem C3_no_sentinel_on_empty_argv :
    build_wrap_binary "/system/bin/linker64".data "/pfx/bin/tool".data []
        = [some "/system/bin/linker64".data, some "/pfx/bin/tool".data]
      ∧ (build_wrap_binary "/system/bin/linker64".data "/pfx/bin/tool".data []).all
          Option.isSome = true
      ∧ build_wrap_script "/system/bin/linker64".data "/pfx/bin/sh".data none
          "/pfx/bin/script".data []
        = [some "/system/bin/linker64".data, some "/pfx/bin/sh".data,
           some "/pfx/bin/script".data]
      ∧ (build_wrap_script "/system/bin/linker64".data "/pfx/bin/sh".data none
          "/pfx/bin/script".data []).all Option.isSome = true := by
  decide

theorem starts_with_append_self (l t : CStr) : starts_with (l ++ t) l = true :=
  List.isPrefixOf_iff_prefix.mpr (List.prefix_append l t)

theorem head_of_starts_with_data (p : CStr) (h : starts_with p legacy_data = true) :
    p.head? = some '/' := by
  obtain ⟨t, ht⟩ := List.isPrefixOf_iff_prefix.mp h
  rw [← ht]
  rfl

theorem head_of_starts_with_user (p : CStr) (h : starts_with p legacy_user = true) :
    p.head? = some '/' := by
  obtain ⟨t, ht⟩ := List.isPrefixOf_iff_prefix.mp h
  rw [← ht]
  rfl

theorem map_legacy_data_eq (env : Env) (root suf : CStr)
    (h1 : env.vPREFIX = some root) (h2 : root ≠ []) :
    map_legacy_termux_usr_path env (legacy_data ++ suf)
      = if 0 < (root ++ suf).length ∧ (root ++ suf).length < PATH_MAX
        then some (root ++ suf) else none := by
  have hsw : starts_with (legacy_data ++ suf) legacy_data = true :=
    starts_with_append_self _ _
  simp only [map_legacy_termux_usr_path, h1, hsw, if_true, List.drop_left]
  rw [if_neg h2]

theorem map_legacy_user_eq (env : Env) (root suf : CStr)
    (h1 : env.vPREFIX = some root) (h2 : root ≠ [])
    (h3 : starts_with (legacy_user ++ suf) legacy_data = false) :
    map_legacy_termux_usr_path env (legacy_user ++ suf)
      = if 0 < (root ++ suf).length ∧ (root ++ suf).length < PATH_MAX
        then some (root ++ suf) else none := by
  have hsw : starts_with (legacy_user ++ suf) legacy_user = true :=
    starts_with_append_self _ _
  simp only [map_legacy_termux_usr_path, h1, h3, hsw, if_true, Bool.false_eq_true,
    if_false, List.drop_left]
  rw [if_neg h2]

theorem map_legacy_none_of_nomatch (env : Env) (p : CStr)
    (hd : starts_with p legacy_data = false) (hu : starts_with p legacy_user = false) :
    map_legacy_termux_usr_path env p = none := by
  unfold map_legacy_termux_usr_path
  cases env.vPREFIX with
  | none => rfl
  | some root =>
    dsimp only
    by_cases h2 : root = []
    · rw [if_pos h2]
    · rw [if_neg h2]
      simp only [hd, hu, Bool.false_eq_true, if_false]

theorem map_legacy_none_of_unset (env : Env) (p : CStr)
    (h : env.vPREFIX = none ∨ env.vPREFIX = some []) :
    map_legacy_termux_usr_path env p = none := by
  unfold map_legacy_termux_usr_path
  cases h with
  | inl h => rw [h]
  | inr h => rw [h]; simp

/-- C5 (amended): for every absolute path that begins with one of the two
fixed legacy prefixes, when `PREFIX` is set and non-empty AND the rewritten
path fits the 4096-byte output buffer, the remapper returns the current root
concatenated with the remaining suffix verbatim; when the rewritten path
would reach 4096 bytes it signals "no rewrite" instead; and for every other
path — relative paths included — and whenever `PREFIX` is unset or empty, it
signals "no rewrite".  The remapper is a pure function of `(env, path)`. -/
theorem C5_remap (env : Env) (root p suf : CStr) :
    (env.vPREFIX = some root → root ≠ [] → p = legacy_data ++ suf →
        (root ++ suf).length < PATH_MAX →
        map_legacy_termux_usr_path env p = some (root ++ suf))
    ∧ (env.vPREFIX = some root → root ≠ [] → p = legacy_user ++ suf →
        starts_with p legacy_data = false →
        (root ++ suf).length < PATH_MAX →
        map_legacy_termux_usr_path env p = some (root ++ suf))
    ∧ (env.vPREFIX = some root → root ≠ [] → p = legacy_data ++ suf →
        PATH_MAX ≤ (root ++ suf).length →
        map_legacy_termux_usr_path env p = none)
    ∧ ((env.vPREFIX = none ∨ env.vPREFIX = some []
        ∨ (starts_with p legacy_data = false ∧ starts_with p legacy_user = false)) →
        map_legacy_termux_usr_path env p = none)
    ∧ (p.head? ≠ some '/' → map_legacy_termux_usr_path env p = none) := by
  have hpos : root ≠ [] → 0 < (root ++ suf).length := by
    intro h2
    have := List.length_pos.mpr h2
    simp only [List.length_append]
    omega
  refine ⟨?_, ?_, ?_, ?_, ?_⟩
  · intro h1 h2 hp hlen
    rw [hp, map_legacy_data_eq env root suf h1 h2, if_pos ⟨hpos h2, hlen⟩]
  · intro h1 h2 hp hnd hlen
    rw [hp] at hnd
    rw [hp, map_legacy_user_eq env root suf h1 h2 hnd, if_pos ⟨hpos h2, hlen⟩]
  · intro h1 h2 hp hlen
    rw [hp, map_legacy_data_eq env root suf h1 h2, if_neg]
    intro hc
    exact absurd hc.2 (by omega)
  · intro h
    rcases h with h | h | ⟨hd, hu⟩
    · exact map_legacy_none_of_unset env p (Or.inl h)
    · exact map_legacy_none_of_unset env p (Or.inr h)
    · exact map_legacy_none_of_nomatch env p hd hu
  · intro hrel
    by_cases hd : starts_with p legacy_data = true
    · exact absurd (head_of_starts_with_data p hd) hrel
    · by_cases hu : starts_with p legacy_user = true
      · exact absurd (head_of_starts_with_user p hu) hrel
      · exact map_legacy_none_of_nomatch env p (Bool.not_eq_true _ ▸ eq_false_of_ne_true hd)
          (Bool.not_eq_true _ ▸ eq_false_of_ne_true hu)

/-- Witness for C5 at a concrete input: remapping a legacy path with a short
current root rewrites prefix and keeps the suffix. -/
theorem C5_remap_witness :
    map_legacy_termux_usr_path (Env.mk (some "/p".data) none none)
        (legacy_data ++ "/bin/sh".data)
      = some ("/p".data ++ "/bin/sh".data) :=
  (C5_remap (Env.mk (some "/p".data) none none) "/p".data
      (legacy_data ++ "/bin/sh".data) "/bin/sh".data).1 rfl (by decide) rfl (by decide)

/-- C5 counterexample: with `PREFIX` a 4096-byte root and the path exactly
the first legacy prefix, the path matches a legacy prefix and the root is
set and non-empty, yet the remapper signals "no rewrite" (the `snprintf`
result does not fit `PATH_MAX`), contradicting the claim that every matching
path is rewritten. -/
theorem C5_remap_counterexample :
    (Env.mk (some (List.replicate PATH_MAX 'a')) none none).vPREFIX
        = some (List.replicate PATH_MAX 'a')
      ∧ (List.replicate PATH_MAX 'a' : CStr) ≠ []
      ∧ starts_with legacy_data legacy_data = true
      ∧ map_legacy_termux_usr_path (Env.mk (some (List.replicate PATH_MAX 'a')) none none)
          legacy_data = none := by
  have h2 : (List.replicate PATH_MAX 'a' : CStr) ≠ [] := by
    intro h
    have := List.length_replicate PATH_MAX 'a'
    rw [h] at this
    simp [PATH_MAX] at this
  have hself : starts_with legacy_data legacy_data = true := by
    have := starts_with_append_self legacy_data []
    rwa [List.append_nil] at this
  refine ⟨rfl, h2, hself, ?_⟩
  have heq := map_legacy_data_eq (Env.mk (some (List.replicate PATH_MAX 'a')) none none)
    (List.replicate PATH_MAX 'a') [] rfl h2
  rw [List.append_nil, List.append_nil] at heq
  rw [heq, if_neg]
  intro hc
  have := hc.2
  rw [List.length_replicate] at this
  omega

theorem parse_shebang_buf_sound (buf : CStr) (sb : shebang_info_t)
    (h : parse_shebang_buf buf = some sb) (hlen : buf.length ≤ 511) :
    sb.interpreter ≠ [] ∧ sb.interpreter.head? = some '/'
      ∧ sb.interpreter.length ≤ 509 ∧ sb.arg.length ≤ 511 := by
  cases buf with
  | nil => simp [parse_shebang_buf] at h
  | cons b0 rest =>
    cases rest with
    | nil => simp [parse_shebang_buf] at h
    | cons b1 tail =>
      have htail : tail.length ≤ 509 := by
        simp only [List.length_cons] at hlen
        omega
      have hplen : (tail.dropWhile shebang_space).length ≤ 509 :=
        le_trans (List.dropWhile_sublist _).length_le htail
      simp only [parse_shebang_buf] at h
      by_cases hhb : b0 = '#' ∧ b1 = '!'
      · rw [if_pos hhb] at h
        cases hcp : tail.dropWhile shebang_space with
        | nil => rw [hcp] at h; dsimp only at h; exact Option.noConfusion h
        | cons c crest =>
          rw [hcp] at h
          rw [hcp] at hplen
          dsimp only at h
          by_cases hc : c = '/'
          · rw [if_neg (not_not_intro hc)] at h
            by_cases hl : ((c :: crest).takeWhile fun d => !shebang_term d).length = 0
                ∨ PATH_MAX ≤ ((c :: crest).takeWhile fun d => !shebang_term d).length
            · rw [if_pos hl] at h; simp at h
            · rw [if_neg hl] at h
              have hne : ((c :: crest).takeWhile fun d => !shebang_term d) ≠ [] := by
                intro hnil
                exact hl (Or.inl (by rw [hnil]; rfl))
              have hhd : ((c :: crest).takeWhile fun d => !shebang_term d).head? = some '/' := by
                subst hc
                rw [List.takeWhile_cons, if_pos (by decide)]
                rfl
              have hil : ((c :: crest).takeWhile fun d => !shebang_term d).length ≤ 509 :=
                le_trans (List.takeWhile_sublist _).length_le hplen
              have hrl : (((c :: crest).dropWhile fun d => !shebang_term d).dropWhile
                  shebang_space).length ≤ 509 :=
                le_trans (List.dropWhile_sublist _).length_le
                  (le_trans (List.dropWhile_sublist _).length_le hplen)
              cases hr2 : ((c :: crest).dropWhile fun d => !shebang_term d).dropWhile
                  shebang_space with
              | nil =>
                rw [hr2] at h
                dsimp only at h
                injection h with h5
                subst h5
                exact ⟨hne, hhd, hil, by simp⟩
              | cons d drest =>
                rw [hr2] at h
                rw [hr2] at hrl
                dsimp only at h
                by_cases he : shebang_eol d = true
                · rw [if_pos he] at h
                  injection h with h5
                  subst h5
                  exact ⟨hne, hhd, hil, by simp⟩
                · rw [if_neg he] at h
                  have hal : ((d :: drest).takeWhile fun e => !shebang_eol e).length ≤ 511 :=
                    le_trans (le_trans (List.takeWhile_sublist _).length_le hrl) (by omega)
                  by_cases ha : 0 < ((d :: drest).takeWhile fun e => !shebang_eol e).length
                      ∧ ((d :: drest).takeWhile fun e => !shebang_eol e).length < PATH_MAX
                  · rw [if_pos ha] at h
                    injection h with h5
                    subst h5
                    exact ⟨hne, hhd, hil, hal⟩
                  · rw [if_neg ha] at h
                    injection h with h5
                    subst h5
                    exact ⟨hne, hhd, hil, by simp⟩
          · rw [if_pos hc] at h
            exact Option.noConfusion h
      · rw [if_neg hhb] at h
        exact Option.noConfusion h

theorem parse_shebang_sound (fs : FS) (path : CStr) (sb : shebang_info_t)
    (h : parse_shebang fs path = some sb) :
    sb.interpreter ≠ [] ∧ sb.interpreter.head? = some '/'
      ∧ sb.interpreter.length ≤ 509 ∧ sb.arg.length ≤ 511 := by
  unfold parse_shebang at h
  split at h
  · exact absurd h (by simp)
  · rename_i content heq
    dsimp only at h
    split at h
    · exact absurd h (by simp)
    · refine parse_shebang_buf_sound _ sb h ?_
      refine le_trans (List.takeWhile_sublist _).length_le ?_
      refine le_trans (List.length_take_le _ _) ?_
      exact Nat.min_le_right _ _

/-- C6 (amended): the parser reads only the first 511 bytes of the file; an
interpreter token that extends beyond that read window is returned truncated
at the window boundary with the parse succeeding (see the counterexample),
not rejected.  Consequently every successful parse returns a non-empty
absolute interpreter of at most 509 bytes and an argument of at most 511
bytes — both strictly below the PATH_MAX (4096) limits, so the "too long →
not a script" rejection branches can never fire. -/
theorem C6_parse_bounds (fs : FS) (path : CStr) (sb : shebang_info_t)
    (h : parse_shebang fs path = some sb) :
    sb.interpreter ≠ [] ∧ sb.interpreter.head? = some '/'
      ∧ sb.interpreter.length ≤ 509 ∧ sb.interpreter.length < PATH_MAX
      ∧ sb.arg.length ≤ 511 ∧ sb.arg.length < PATH_MAX := by
  obtain ⟨h1, h2, h3, h4⟩ := parse_shebang_sound fs path sb h
  refine ⟨h1, h2, h3, ?_, h4, ?_⟩
  · unfold PATH_MAX
    omega
  · unfold PATH_MAX
    omega

/-- Witness for C6 at a concrete input: a parse that succeeds with an
interpreter and argument satisfies the bounds. -/
theorem C6_parse_bounds_witness :
    (⟨"/bin/sh".data, "-x".data, true⟩ : shebang_info_t).interpreter ≠ []
      ∧ (⟨"/bin/sh".data, "-x".data, true⟩ : shebang_info_t).interpreter.head? = some '/'
      ∧ (⟨"/bin/sh".data, "-x".data, true⟩ : shebang_info_t).interpreter.length ≤ 509
      ∧ (⟨"/bin/sh".data, "-x".data, true⟩ : shebang_info_t).interpreter.length < PATH_MAX
      ∧ (⟨"/bin/sh".data, "-x".data, true⟩ : shebang_info_t).arg.length ≤ 511
      ∧ (⟨"/bin/sh".data, "-x".data, true⟩ : shebang_info_t).arg.length < PATH_MAX :=
  C6_parse_bounds (fun _ => some "#!/bin/sh -x\nbody".data) "/s".data
    ⟨"/bin/sh".data, "-x".data, true⟩ (by decide)

theorem takeWhile_replicate_newline (n : Nat) :
    (List.replicate n 'a' ++ ['\n']).takeWhile (fun d => !shebang_term d)
      = List.replicate n 'a' := by
  induction n with
  | zero => decide
  | succ m ih =>
    rw [List.replicate_succ, List.cons_append, List.takeWhile_cons, if_pos (by decide), ih]

theorem takeWhile_replicate_of_pos (p : Char → Bool) (n : Nat) (a : Char) (h : p a = true) :
    (List.replicate n a).takeWhile p = List.replicate n a := by
  induction n with
  | zero => rfl
  | succ m ih => rw [List.replicate_succ, List.takeWhile_cons, if_pos h, ih]

theorem dropWhile_replicate_of_pos (p : Char → Bool) (n : Nat) (a : Char) (h : p a = true) :
    (List.replicate n a).dropWhile p = [] := by
  induction n with
  | zero => rfl
  | succ m ih => rw [List.replicate_succ, List.dropWhile_cons, if_pos h, ih]

theorem parse_shebang_buf_slash_replicate (n : Nat) (hn : n + 1 < PATH_MAX) :
    parse_shebang_buf ('#' :: '!' :: '/' :: List.replicate n 'a')
      = some ⟨'/' :: List.replicate n 'a', [], false⟩ := by
  have e1 : (List.replicate n 'a').takeWhile (fun d => !shebang_term d)
      = List.replicate n 'a' := takeWhile_replicate_of_pos _ _ _ (by decide)
  have e2 : (List.replicate n 'a').dropWhile (fun d => !shebang_term d)
      = [] := dropWhile_replicate_of_pos _ _ _ (by decide)
  have hP1 : List.dropWhile shebang_space ('/' :: List.replicate n 'a')
      = '/' :: List.replicate n 'a' := by
    rw [List.dropWhile_cons, if_neg (by decide)]
  have hE1 : List.takeWhile (fun d => !shebang_term d) ('/' :: List.replicate n 'a')
      = '/' :: List.replicate n 'a' := by
    rw [List.takeWhile_cons, if_pos (by decide), e1]
  have hE2 : List.dropWhile (fun d => !shebang_term d) ('/' :: List.replicate n 'a')
      = [] := by
    rw [List.dropWhile_cons, if_pos (by decide), e2]
  have hcond : ¬(('/' :: List.replicate n 'a').length = 0
      ∨ PATH_MAX ≤ ('/' :: List.replicate n 'a').length) := by
    simp only [List.length_cons, List.length_replicate, PATH_MAX] at hn ⊢
    omega
  unfold parse_shebang_buf
  dsimp only
  rw [if_pos ⟨rfl, rfl⟩, hP1]
  dsimp only
  rw [if_neg (show ¬('/' ≠ '/') by decide), hE1, hE2, if_neg hcond]
  rfl

/-- C6 counterexample: a file whose shebang interpreter token is 5001 bytes
long (exceeding the 4096-byte fixed maximum) is not rejected: the parser
reads only 511 bytes and returns the token truncated to the 509 bytes
visible in the window, so it reports a (truncated) script instead of "not a
script". -/
theorem C6_truncation_counterexample :
    ((("#!".data ++ '/' :: (List.replicate 5000 'a' ++ ['\n'])).drop 2).takeWhile
        (fun d => !shebang_term d)).length > PATH_MAX
      ∧ parse_shebang
          (fun _ => some ("#!".data ++ '/' :: (List.replicate 5000 'a' ++ ['\n'])))
          "/x".data
        = some ⟨'/' :: List.replicate 508 'a', [], false⟩ := by
  constructor
  · have hdrop : ("#!".data ++ '/' :: (List.replicate 5000 'a' ++ ['\n'])).drop 2
        = '/' :: (List.replicate 5000 'a' ++ ['\n']) := rfl
    rw [hdrop, List.takeWhile_cons, if_pos (by decide), takeWhile_replicate_newline]
    simp only [List.length_cons, List.length_replicate, PATH_MAX, gt_iff_lt]
    omega
  · have hshape : ("#!".data ++ '/' :: (List.replicate 5000 'a' ++ ['\n']))
        = '#' :: '!' :: '/' :: (List.replicate 5000 'a' ++ ['\n']) := rfl
    have hclen : ('#' :: '!' :: '/' :: (List.replicate 5000 'a' ++ ['\n'])).length = 5004 := by
      simp only [List.length_cons, List.length_append, List.length_replicate, List.length_nil]
    have htk : ('#' :: '!' :: '/' :: (List.replicate 5000 'a' ++ ['\n'])).take 511
        = '#' :: '!' :: '/' :: List.replicate 508 'a' := by
      have h1 : (511 : Nat) = 508 + 1 + 1 + 1 := by norm_num
      have h2 : (508 : Nat) ≤ (List.replicate 5000 'a').length := by
        rw [List.length_replicate]
        omega
      have h3 : min 508 5000 = 508 := by omega
      rw [h1, List.take_succ_cons, List.take_succ_cons, List.take_succ_cons,
        List.take_append_of_le_length h2, List.take_replicate, h3]
    have hbuf : (('#' :: '!' :: '/' :: List.replicate 508 'a').takeWhile
          (fun c => decide (c ≠ Char.ofNat 0)))
        = '#' :: '!' :: '/' :: List.replicate 508 'a' := by
      rw [List.takeWhile_cons, if_pos (by decide), List.takeWhile_cons, if_pos (by decide),
        List.takeWhile_cons, if_pos (by decide),
        takeWhile_replicate_of_pos _ _ _ (by decide)]
    unfold parse_shebang
    rw [hshape]
    dsimp only
    rw [hclen]
    have hmin : min 5004 511 = 511 := by norm_num
    rw [hmin, if_neg (show ¬((511 : Nat) ≤ 2) by omega), htk, hbuf]
    exact parse_shebang_buf_slash_replicate 508 (by decide)

theorem parse_shebang_buf_ne_hash (b0 : Char) (rest : List Char) (h : b0 ≠ '#') :
    parse_shebang_buf (b0 :: rest) = none := by
  cases rest with
  | nil => rfl
  | cons b1 tail => simp [parse_shebang_buf, h]

theorem take_four_shape {l : List Char} (h : l.take 4 = elf_magic) :
    ∃ t, l = Char.ofNat 127 :: 'E' :: 'L' :: 'F' :: t := by
  cases l with
  | nil => exact absurd h (by simp [elf_magic])
  | cons a l1 =>
    cases l1 with
    | nil => exact absurd h (by simp [elf_magic])
    | cons b l2 =>
      cases l2 with
      | nil => exact absurd h (by simp [elf_magic])
      | cons c l3 =>
        cases l3 with
        | nil => exact absurd h (by simp [elf_magic])
        | cons d t =>
          refine ⟨t, ?_⟩
          have h4 : a = Char.ofNat 127 ∧ b = 'E' ∧ c = 'L' ∧ d = 'F' := by
            simpa [List.take, elf_magic] using h
          rw [h4.1, h4.2.1, h4.2.2.1, h4.2.2.2]

theorem parse_some_not_elf (fs : FS) (p : CStr) (sb : shebang_info_t)
    (hp : parse_shebang fs p = some sb) : is_elf_binary fs p = false := by
  cases hfs : fs p with
  | none => simp [is_elf_binary, hfs]
  | some content =>
    unfold is_elf_binary
    rw [hfs]
    dsimp only
    by_cases he : content.take 4 = elf_magic
    · exfalso
      obtain ⟨t, ht⟩ := take_four_shape he
      subst ht
      unfold parse_shebang at hp
      rw [hfs] at hp
      dsimp only at hp
      have hlen : 4 ≤ (Char.ofNat 127 :: 'E' :: 'L' :: 'F' :: t).length := by
        simp [List.length_cons]
      have hn : ¬ (min (Char.ofNat 127 :: 'E' :: 'L' :: 'F' :: t).length 511 ≤ 2) := by
        omega
      rw [if_neg hn] at hp
      obtain ⟨k, hk⟩ : ∃ k, min (Char.ofNat 127 :: 'E' :: 'L' :: 'F' :: t).length 511
          = k + 1 := by
        refine ⟨min (Char.ofNat 127 :: 'E' :: 'L' :: 'F' :: t).length 511 - 1, ?_⟩
        omega
      rw [hk, List.take_succ_cons, List.takeWhile_cons, if_pos (by decide),
        parse_shebang_buf_ne_hash _ _ (by decide)] at hp
      exact Option.noConfusion hp
    · rw [beq_eq_false_iff_ne]
      exact he

theorem should_wrap_elf_false_of_not_elf (env : Env) (fs : FS) (p : CStr)
    (h : is_elf_binary fs p = false) : should_wrap_elf env fs p = false := by
  simp only [should_wrap_elf, h, ite_self]

theorem callOf_do_real (real : ExecCall → Option Nat) (c : ExecCall) :
    callOf (do_real real c) = some c := by
  unfold do_real
  cases real c with
  | none => rfl
  | some e => rfl

/-- C1: for every exec request whose legacy-remapped path `eff` is absolute,
not the system dynamic linker, not under `/system/` or `/apex/`, classified
in-environment, and whose file content carries the ELF magic, the interposed
`execve` execs the system linker with the wrapped-binary argument vector
(target = `eff`), for every argv, envp, filesystem and linker probe — in
particular regardless of what the shebang parser would say about the file,
since the format-detection branch is tested first and takes precedence. -/
theorem C1_wrap_binary (env : Env) (fs : FS) (acc : CStr → Bool)
    (real : ExecCall → Option Nat) (environ_ : List CStr) (filename eff : CStr)
    (argv envp : Option (List CStr))
    (heff : (map_legacy_termux_usr_path env filename).getD filename = eff)
    (habs : eff.head? = some '/')
    (hlink : is_linker_path eff = false)
    (hsys : starts_with eff "/system/".data = false)
    (hapex : starts_with eff "/apex/".data = false)
    (hin : path_in_pfx env eff = true)
    (helf : is_elf_binary fs eff = true) :
    execve_model env fs acc real environ_ filename argv envp
      = do_real real
          ⟨select_system_linker acc,
           .built (build_wrap_binary (select_system_linker acc) eff (argv.getD [])),
           envp.getD environ_⟩ := by
  have hwrap : should_wrap_elf env fs eff = true := by
    simp [should_wrap_elf, habs, hlink, hsys, hapex, hin, helf]
  unfold execve_model
  dsimp only
  rw [heff, if_pos hwrap]
  rfl

/-- Witness for C1 at a concrete input: an in-environment ELF file is execed
through the 64-bit system linker. -/
theorem C1_wrap_binary_witness :
    execve_model (Env.mk (some "/pfx".data) none none)
        (fun q => if q = "/pfx/bin/tool".data then some elf_magic else none)
        (fun _ => true) (fun _ => some 2) [] "/pfx/bin/tool".data
        (some ["tool".data]) none
      = do_real (fun _ => some 2)
          ⟨select_system_linker (fun _ => true),
           .built (build_wrap_binary (select_system_linker (fun _ => true))
             "/pfx/bin/tool".data ((some ["tool".data] : Option (List CStr)).getD [])),
           (none : Option (List CStr)).getD []⟩ :=
  C1_wrap_binary (Env.mk (some "/pfx".data) none none)
    (fun q => if q = "/pfx/bin/tool".data then some elf_magic else none)
    (fun _ => true) (fun _ => some 2) [] "/pfx/bin/tool".data "/pfx/bin/tool".data
    (some ["tool".data]) none (by decide) (by decide) (by decide) (by decide)
    (by decide) (by decide) (by decide)

/-- C4: for every script whose (remapped) path is classified in-environment
and parses as a shebang script, when the parsed interpreter — after applying
the legacy remap to it — is not classified in-environment, the interposed
`execve` passes the original request through unchanged: it invokes the real
`execve` with the same (remapped) path and the caller's own argv pointer,
not a linker wrap. -/
theorem C4_script_passthrough (env : Env) (fs : FS) (acc : CStr → Bool)
    (real : ExecCall → Option Nat) (environ_ : List CStr) (filename eff : CStr)
    (sb : shebang_info_t) (argv envp : Option (List CStr))
    (heff : (map_legacy_termux_usr_path env filename).getD filename = eff)
    (hin : path_in_pfx env eff = true)
    (hparse : parse_shebang fs eff = some sb)
    (hout : path_in_pfx env
        ((map_legacy_termux_usr_path env sb.interpreter).getD sb.interpreter) = false) :
    execve_model env fs acc real environ_ filename argv envp
      = do_real real ⟨eff, .orig argv, envp.getD environ_⟩ := by
  have hnelf : is_elf_binary fs eff = false := parse_some_not_elf fs eff sb hparse
  have hwrap : should_wrap_elf env fs eff = false :=
    should_wrap_elf_false_of_not_elf env fs eff hnelf
  have hint : sb.interpreter ≠ [] := (parse_shebang_sound fs eff sb hparse).1
  have hns : ¬ (should_wrap_elf env fs eff = true) := by
    rw [hwrap]
    exact Bool.false_ne_true
  unfold execve_model
  dsimp only
  rw [heff, if_neg hns, if_pos hin, hparse]
  dsimp only
  unfold exec_script_via_linker_model
  rw [if_neg hint]
  dsimp only
  rw [if_pos hout]

/-- Witness for C4 at a concrete input: a managed-environment script whose
shebang names `/system/bin/sh` is passed through unchanged. -/
theorem C4_script_passthrough_witness :
    execve_model (Env.mk (some "/pfx".data) none none)
        (fun q => if q = "/pfx/bin/script".data then some "#!/system/bin/sh\necho".data
                  else none)
        (fun _ => true) (fun _ => some 2) [] "/pfx/bin/script".data
        (some ["script".data]) none
      = do_real (fun _ => some 2)
          ⟨"/pfx/bin/script".data, .orig (some ["script".data]),
           (none : Option (List CStr)).getD []⟩ :=
  C4_script_passthrough (Env.mk (some "/pfx".data) none none)
    (fun q => if q = "/pfx/bin/script".data then some "#!/system/bin/sh\necho".data
              else none)
    (fun _ => true) (fun _ => some 2) [] "/pfx/bin/script".data "/pfx/bin/script".data
    ⟨"/system/bin/sh".data, [], false⟩ (some ["script".data]) none
    (by decide) (by decide) (by decide) (by decide)

/-- C10: for every entry-point call with a NULL envp, every invocation of the
underlying real `execve` — on every disposition (direct, wrap-binary,
wrap-script, passthrough) — receives the process's current environment
`environ` instead of NULL. -/
theorem C10_null_envp (env : Env) (fs : FS) (acc : CStr → Bool)
    (real : ExecCall → Option Nat) (environ_ : List CStr) (filename : CStr)
    (argv : Option (List CStr)) (call : ExecCall)
    (h : callOf (execve_model env fs acc real environ_ filename argv none) = some call) :
    call.envp = environ_ := by
  unfold execve_model at h
  dsimp only at h
  split at h
  · unfold execve_via_linker_model at h
    dsimp only at h
    rw [callOf_do_real] at h
    injection h with h5
    subst h5
    rfl
  · split at h
    · unfold exec_script_via_linker_model at h
      split at h
      · exact Option.noConfusion h
      · dsimp only at h
        split at h
        · rw [callOf_do_real] at h
          injection h with h5
          subst h5
          rfl
        · rw [callOf_do_real] at h
          injection h with h5
          subst h5
          rfl
    · rw [callOf_do_real] at h
      injection h with h5
      subst h5
      rfl

/-- Witness for C10 at a concrete input: a direct exec with NULL envp hands
the real `execve` the current `environ`. -/
theorem C10_null_envp_witness :
    callOf (execve_model (Env.mk none none none) (fun _ => none) (fun _ => false)
        (fun _ => some 2) ["A=1".data] "/bin/ls".data none none)
      = some ⟨"/bin/ls".data, .orig none, ["A=1".data]⟩
    ∧ (⟨"/bin/ls".data, .orig none, ["A=1".data]⟩ : ExecCall).envp = ["A=1".data] :=
  ⟨by decide,
   C10_null_envp (Env.mk none none none) (fun _ => none) (fun _ => false)
     (fun _ => some 2) ["A=1".data] "/bin/ls".data none
     ⟨"/bin/ls".data, .orig none, ["A=1".data]⟩ (by decide)⟩

theorem search_loop_all_fail (att : CStr → ExecResult) (err : CStr → Nat) :
    ∀ (l : List CStr) (s : Nat),
      (∀ c ∈ l, errnoOf (att c) = some (err c)) →
      search_loop att l s
        = (l, .failed none (l.foldl (fun a c => remember_errno a (err c)) s)) := by
  intro l
  induction l with
  | nil => intro s _; rfl
  | cons c rest ih =>
    intro s h
    have hc : errnoOf (att c) = some (err c) := h c (List.mem_cons_self c rest)
    cases hatt : att c with
    | noReturn call =>
      rw [hatt] at hc
      exact absurd hc (by simp [errnoOf])
    | failed x e =>
      rw [hatt] at hc
      have he : e = err c := by simpa [errnoOf] using hc
      subst he
      unfold search_loop
      rw [hatt]
      dsimp only
      rw [ih (remember_errno s (err c)) (fun d hd => h d (List.mem_cons_of_mem c hd))]
      rw [List.foldl_cons]

/-- C7 evaluated at the failing inputs: `strtok_r` never yields an empty
token, so an empty `PATH` segment produces no `./name` candidate at all —
with `PATH="/a::/b"` only `/a/tool` and `/b/tool` are built (no `./tool` in
between), and with `PATH=":"` the search attempts nothing and fails with
`ENOENT` even though any attempt would have reported `EACCES`. -/
theorem C7_empty_segment_skipped :
    strtok_colon "/a::/b".data = ["/a".data, "/b".data]
      ∧ build_candidates "/a::/b".data "tool".data = ["/a/tool".data, "/b/tool".data]
      ∧ strtok_colon ":".data = []
      ∧ search_path_and_exec_model (Env.mk none none (some ":".data)) (fun _ => none)
          (fun _ => false) (fun _ => some EACCES) [] "tool".data none none
        = ([], .failed none ENOENT) := by
  decide

/-- C8 (amended): for every search-style exec of a separator-free name, the
candidates are attempted strictly left to right; an attempt whose underlying
failure is not of the "not found"/"not a directory" class updates the
remembered error but the search continues through all remaining candidates
(it does not stop); when the list is exhausted the call returns -1 with the
last remembered error, defaulting to "not found" if no candidate produced a
more specific error. -/
theorem C8_search_continues (env : Env) (fs : FS) (acc : CStr → Bool)
    (real : ExecCall → Option Nat) (environ_ : List CStr) (f : CStr)
    (argv envp : Option (List CStr)) (err : CStr → Nat)
    (hne : f ≠ []) (hns : f.contains '/' = false)
    (hfail : ∀ c ∈ build_candidates (effective_path env) f,
        errnoOf (execve_model env fs acc real environ_ c argv envp) = some (err c)) :
    search_path_and_exec_model env fs acc real environ_ f argv envp
      = (build_candidates (effective_path env) f,
         .failed none ((build_candidates (effective_path env) f).foldl
           (fun s c => remember_errno s (err c)) ENOENT)) := by
  have hns2 : ¬ (f.contains '/' = true) := by
    rw [hns]
    exact Bool.false_ne_true
  unfold search_path_and_exec_model
  rw [if_neg hne, if_neg hns2]
  exact search_loop_all_fail _ err _ ENOENT hfail

/-- Witness for C8 at a concrete input: with `PATH="/a:/b"` and every
candidate failing with `EACCES`, both candidates are attempted in order and
the remembered error is `EACCES`. -/
theorem C8_search_continues_witness :
    search_path_and_exec_model (Env.mk none none (some "/a:/b".data)) (fun _ => none)
        (fun _ => false) (fun _ => some EACCES) [] "tool".data none none
      = (build_candidates
           (effective_path (Env.mk none none (some "/a:/b".data))) "tool".data,
         .failed none ((build_candidates
             (effective_path (Env.mk none none (some "/a:/b".data))) "tool".data).foldl
           (fun s c => remember_errno s ((fun _ => EACCES) c)) ENOENT)) :=
  C8_search_continues (Env.mk none none (some "/a:/b".data)) (fun _ => none)
    (fun _ => false) (fun _ => some EACCES) [] "tool".data none none
    (fun _ => EACCES) (by decide) (by decide) (by decide)

/-- C8 counterexample against the claim as stated: with `PATH="/a:/b"`, the
first candidate `/a/tool` fails with `EACCES` — an error outside the
"not found"/"not a directory" class — yet the search does NOT stop there: it
also attempts `/b/tool` (the attempt trace has both candidates), and only
after exhausting the list returns the remembered `EACCES`. -/
theorem C8_no_stop_counterexample :
    search_path_and_exec_model (Env.mk none none (some "/a:/b".data)) (fun _ => none)
        (fun _ => true)
        (fun c => if c.path = "/a/tool".data then some EACCES else some ENOENT) []
        "tool".data none none
      = (["/a/tool".data, "/b/tool".data], .failed none EACCES)
    ∧ errnoOf (execve_model (Env.mk none none (some "/a:/b".data)) (fun _ => none)
        (fun _ => true)
        (fun c => if c.path = "/a/tool".data then some EACCES else some ENOENT) []
        "/a/tool".data none none) = some EACCES
    ∧ EACCES ≠ ENOENT ∧ EACCES ≠ ENOTDIR := by
  decide

/-- C9: for every search-style exec of a separator-free name, when `PATH` is
unset or empty the search list used is exactly the single directory
`/system/bin`: the search runs the candidate loop on exactly the one
candidate `/system/bin/<name>`. -/
theorem C9_default_search_path (env : Env) (fs : FS) (acc : CStr → Bool)
    (real : ExecCall → Option Nat) (environ_ : List CStr) (f : CStr)
    (argv envp : Option (List CStr))
    (hpath : env.vPATH = none ∨ env.vPATH = some [])
    (hne : f ≠ []) (hns : f.contains '/' = false)
    (hlen : ("/system/bin/".data ++ f).length < PATH_MAX) :
    search_path_and_exec_model env fs acc real environ_ f argv envp
      = search_loop (fun c => execve_model env fs acc real environ_ c argv envp)
          ["/system/bin/".data ++ f] ENOENT := by
  have hns2 : ¬ (f.contains '/' = true) := by
    rw [hns]
    exact Bool.false_ne_true
  have hep : effective_path env = "/system/bin".data := by
    cases hpath with
    | inl h => simp [effective_path, h]
    | inr h => simp [effective_path, h]
  have hc1 : ("/system/bin".data ++ '/' :: f) = "/system/bin/".data ++ f := rfl
  have hg : 0 < ("/system/bin/".data ++ f).length
      ∧ ("/system/bin/".data ++ f).length < PATH_MAX := by
    refine ⟨?_, hlen⟩
    rw [List.length_append]
    have h12 : ("/system/bin/".data).length = 12 := by decide
    omega
  have hsplit : strtok_colon "/system/bin".data = ["/system/bin".data] := by decide
  have hcand : build_candidates "/system/bin".data f = ["/system/bin/".data ++ f] := by
    unfold build_candidates
    rw [hsplit, List.filterMap_cons, List.filterMap_nil]
    dsimp only
    rw [if_neg (show ¬("/system/bin".data = ([] : CStr)) by decide)]
    rw [hc1, if_pos hg]
  unfold search_path_and_exec_model
  rw [if_neg hne, if_neg hns2, hep, hcand]

/-- Witness for C9 at a concrete input: with `PATH` unset the single
candidate attempted is `/system/bin/tool`. -/
theorem C9_default_search_path_witness :
    search_path_and_exec_model (Env.mk none none none) (fun _ => none) (fun _ => false)
        (fun _ => some ENOENT) [] "tool".data none none
      = search_loop (fun c => execve_model (Env.mk none none none) (fun _ => none)
            (fun _ => false) (fun _ => some ENOENT) [] c none none)
          ["/system/bin/".data ++ "tool".data] ENOENT :=
  C9_default_search_path (Env.mk none none none) (fun _ => none) (fun _ => false)
    (fun _ => some ENOENT) [] "tool".data none none (Or.inl rfl) (by decide) (by decide)
    (by decide)

end TermuxExecCompat
